import Mathlib

/-! # smoothscan: code point allocation, page composition, glyph padding

A shallow embedding of the parts of `src/smoothscan.c` that carry the
program's own logic, with theorems about them.

Conventions of the embedding
* `unsigned char` values are `Nat` with an explicit `% 256` where the C
  expression can leave the range (`prev + 1` in `next_code_point`).
* `l_int32` / `int` values are `Int`; loop bounds are taken with `Int.toNat`,
  which is what `for (i = 0; i < n; i++)` does for a negative `n`.
* A C array is a `List`; an access outside the allocated block is undefined
  in C and makes the embedded function return `none`.
* Calls into libharu are recorded as a trace of `HPDF_call` values.
-/

namespace Smoothscan

/-! ## Code points (smoothscan.c, lines 104-127) -/

/-- The C function `first_code_point`. -/
def first_code_point : Nat := 33

/-- The C function `max_code_point`. -/
def max_code_point : Nat := 255

/-- The C function `next_code_point`; the result is an `unsigned char`. -/
def next_code_point (prev : Nat) : Nat :=
  if prev = 126 then 128
  else if prev = 153 then 155
  else (prev + 1) % 256

/-- The walk the allocator performs over one font: start at `cp` and apply
`next_code_point` until `max_code_point` is reached. `fuel` bounds the number
of steps. -/
def enumerate_from : Nat → Nat → List Nat
  | 0, cp => [cp]
  | fuel + 1, cp =>
    if cp = max_code_point then [cp]
    else cp :: enumerate_from fuel (next_code_point cp)

/-- The enumeration from `first_code_point` to `max_code_point`. -/
def enumerate_code_points (fuel : Nat) : List Nat :=
  enumerate_from fuel first_code_point

/-- The usable code point sequence as the header comment and the
specification word it: 33..126, 128..153, 155..255. -/
def usable_code_points : List Nat :=
  List.range' 33 94 ++ List.range' 128 26 ++ List.range' 155 101

/-- The `k`-th usable code point (0-based) in closed form. -/
def usable_at (k : Nat) : Nat :=
  if k < 94 then 33 + k else if k < 120 then 34 + k else 35 + k

/-! ## The mapping table (smoothscan.h, lines 24-31) -/

/-- The C `struct mapping`. -/
structure mapping where
  iclass : Int
  code_point : Nat
  font_num : Nat
  used : Int
  deriving DecidableEq, Repr

/-- The part of leptonica's `JBDATA` that smoothscan reads. `naclass`,
`napage` and `ptaul` hold one entry per component (symbol instance). -/
structure JBDATA where
  w : Int
  h : Int
  nclass : Int
  latticew : Int
  latticeh : Int
  naclass : List Int
  napage : List Int
  ptaul : List (Int × Int)
  deriving DecidableEq, Repr

/-- The leptonica call `numaGetCount`. -/
def numaGetCount (na : List Int) : Nat := na.length

/-- The leptonica call `numaGetIValue`: the value at `i`, and 0 when the index
is not valid (the library stores 0 before it checks the index). -/
def numaGetIValue (na : List Int) (i : Nat) : Int := na.getD i 0

/-- The leptonica call `ptaGetIPt`: the point at `i`, and (0, 0) when the index
is not valid. -/
def ptaGetIPt (pta : List (Int × Int)) (i : Nat) : Int × Int := pta.getD i (0, 0)

/-! ## register_mappings (smoothscan.c, lines 568-610) -/

/-- The loop-carried state of `register_mappings`. -/
structure alloc_state where
  maps : List mapping
  code_point : Nat
  font_num : Nat
  deriving DecidableEq, Repr

/-- The table right after the first loop of `register_mappings`: `ncomp`
entries with `used = 0`. The other fields are indeterminate in C and are never
read before they are written; they are 0 here. -/
def fresh_maps (ncomp : Nat) : List mapping :=
  List.replicate ncomp { iclass := 0, code_point := 0, font_num := 0, used := 0 }

/-- One iteration of the second loop of `register_mappings`, for class `i`. -/
def register_step (st : alloc_state) (i : Nat) : Option alloc_state :=
  match st.maps[i]? with
  | none => none
  | some m =>
    if m.used ≠ 0 then some st
    else
      let maps := st.maps.set i
        { iclass := (i : Int), font_num := st.font_num,
          code_point := st.code_point, used := 1 }
      if st.code_point = max_code_point then
        some { maps := maps, code_point := first_code_point, font_num := st.font_num + 1 }
      else
        some { maps := maps, code_point := next_code_point st.code_point,
               font_num := st.font_num }

/-- The second loop of `register_mappings` run over the class indices in `is`. -/
def register_loop : List Nat → alloc_state → Option alloc_state
  | [], st => some st
  | i :: is, st =>
    match register_step st i with
    | none => none
    | some st1 => register_loop is st1

/-- The C function `register_mappings`: the returned font count and the table
stored through `in_maps`. -/
def register_mappings (data : JBDATA) : Option (Nat × List mapping) :=
  let ncomp := numaGetCount data.naclass
  let st0 : alloc_state :=
    { maps := fresh_maps ncomp, code_point := first_code_point, font_num := 0 }
  match register_loop (List.range data.nclass.toNat) st0 with
  | none => none
  | some st => some (st.font_num + 1, st.maps)

/-- The entry `register_mappings` writes for class `i` when no class is
skipped: font `i / 221`, code point number `i % 221` of the usable sequence. -/
def assigned (i : Nat) : mapping :=
  { iclass := (i : Int), code_point := usable_at (i % 221), font_num := i / 221, used := 1 }

/-- The table of `ncomp` entries in which the classes below `s` are assigned
and the rest is still fresh. -/
def table_after (ncomp s : Nat) : List mapping :=
  (List.range ncomp).map fun i =>
    if i < s then assigned i
    else { iclass := 0, code_point := 0, font_num := 0, used := 0 }

/-- The loop state of `register_mappings` when it is about to treat class `s`. -/
def state_after (ncomp s : Nat) : alloc_state :=
  { maps := table_after ncomp s, code_point := usable_at (s % 221), font_num := s / 221 }

/-- The entries of the table that are in use and belong to font `f`, in table
order: the classes font `f` holds. -/
def classes_of_font (maps : List mapping) (f : Nat) : List mapping :=
  maps.filter fun m => decide (m.used ≠ 0 ∧ m.font_num = f)

/-! ## generate_pdf (smoothscan.c, lines 410-510) -/

/-- A libharu font handle: the font `HPDF_GetFont` returns for the file
`<dir>/<index, printed with %08d>.ttf` with the encoding KOI8-R. -/
structure HPDF_Font where
  dir : String
  index : Nat
  deriving DecidableEq, Repr

/-- The libharu page calls `generate_pdf` makes, with their arguments. A
numeric argument is the integer value of the C argument expression, before the
call converts it to the parameter type `HPDF_REAL` (`float`); what libharu
receives is given by `libharu_receives`. The argument of `ShowText` is the C
string passed, as its bytes before the NUL. -/
inductive HPDF_call where
  | SetWidth (w : Int)
  | SetHeight (h : Int)
  | BeginText
  | SetFontAndSize (font : HPDF_Font) (size : Nat)
  | MoveTextPos (x y : Int)
  | ShowText (text : List Nat)
  | EndText
  | SetRGBStroke (r g b : Nat)
  | Rectangle (x y w h : Int)
  | Stroke
  deriving DecidableEq, Repr

/-- The document `generate_pdf` builds: the loaded fonts, one call trace per
page added, and the file it is saved to. -/
structure HPDF_Doc where
  fonts : List HPDF_Font
  pages : List (List HPDF_call)
  outname : String
  deriving DecidableEq, Repr

/-- The bytes of a C string stored in a `char` buffer: those before the first NUL. -/
def c_string (buf : List Nat) : List Nat := buf.takeWhile fun b => b ≠ 0

/-- Runs the loop body `body` for each index of `is` in turn and concatenates
what the iterations emit; `none` as soon as one iteration has no defined
result. -/
def loop_collect {α : Type} (body : Nat → Option (List α)) : List Nat → Option (List α)
  | [] => some []
  | i :: is =>
    match body i with
    | none => none
    | some out =>
      match loop_collect body is with
      | none => none
      | some rest => some (out ++ rest)

/-- The font loading loop of `generate_pdf`: entry `i` of the array `fonts`. -/
def load_fonts (tmpdirname : String) (num_fonts : Int) : List HPDF_Font :=
  (List.range num_fonts.toNat).map fun i => { dir := tmpdirname, index := i }

/-- The body of the inner loop of `generate_pdf`, for page `j` and component
`i`: the libharu calls it makes on the page. The position is computed in
`l_int32`; the value here is the exact difference, which is the C value
whenever the subtractions do not overflow (see `is_int32`). -/
def compose_instance (data : JBDATA) (maps : List mapping) (fonts : List HPDF_Font)
    (debug_draw_borders : Int) (j i : Nat) : Option (List HPDF_call) :=
  let ipage := numaGetIValue data.napage i
  if ipage ≠ (j : Int) then some []
  else
    let iclass := numaGetIValue data.naclass i
    let x := (ptaGetIPt data.ptaul i).1
    let y := (ptaGetIPt data.ptaul i).2
    if iclass < 0 then none
    else
      match maps[iclass.toNat]? with
      | none => none
      | some m =>
        let text := [m.code_point, 0]
        match fonts[m.font_num]? with
        | none => none
        | some font =>
          let fontsize : Nat := 100
          if fontsize > 300 then none
          else
            some ([HPDF_call.BeginText,
                   HPDF_call.SetFontAndSize font 100,
                   HPDF_call.MoveTextPos x ((data.h - y) - data.latticeh),
                   HPDF_call.ShowText (c_string text),
                   HPDF_call.EndText] ++
                  (if debug_draw_borders ≠ 0 then
                    [HPDF_call.SetRGBStroke 1 0 0,
                     HPDF_call.Rectangle x ((data.h - y) - data.latticeh)
                       data.latticew data.latticeh,
                     HPDF_call.Stroke]
                   else []))

/-- The body of the outer loop of `generate_pdf`: the page added for input
file `j`, as the trace of calls made on it. -/
def compose_page (data : JBDATA) (maps : List mapping) (fonts : List HPDF_Font)
    (debug_draw_borders : Int) (j : Nat) : Option (List HPDF_call) :=
  let ncomp := numaGetCount data.naclass
  match loop_collect (compose_instance data maps fonts debug_draw_borders j)
      (List.range ncomp) with
  | none => none
  | some calls => some (HPDF_call.SetWidth data.w :: HPDF_call.SetHeight data.h :: calls)

/-- The outer loop of `generate_pdf` over the pages in `js`. -/
def compose_pages (data : JBDATA) (maps : List mapping) (fonts : List HPDF_Font)
    (debug_draw_borders : Int) : List Nat → Option (List (List HPDF_call))
  | [] => some []
  | j :: js =>
    match compose_page data maps fonts debug_draw_borders j with
    | none => none
    | some page =>
      match compose_pages data maps fonts debug_draw_borders js with
      | none => none
      | some rest => some (page :: rest)

/-- The C function `generate_pdf`. `tmpdirname` is `none` for a NULL pointer,
on which `strlen` is undefined. -/
def generate_pdf (outname : String) (tmpdirname : Option String) (num_fonts : Int)
    (num_input_files : Int) (data : JBDATA) (maps : List mapping)
    (debug_draw_borders : Int) : Option HPDF_Doc :=
  match tmpdirname with
  | none => none
  | some dir =>
    let fonts := load_fonts dir num_fonts
    match compose_pages data maps fonts debug_draw_borders
        (List.range num_input_files.toNat) with
    | none => none
    | some pages => some { fonts := fonts, pages := pages, outname := outname }

/-! ### Reading a page trace -/

/-- One shown text: font, size, position and the bytes shown. -/
structure text_placement where
  font : HPDF_Font
  size : Nat
  x : Int
  y : Int
  text : List Nat
  deriving DecidableEq, Repr

/-- The text state of a libharu page: current font and size, if set, and the
current text position. -/
structure text_cursor where
  font : Option (HPDF_Font × Nat)
  x : Int
  y : Int
  deriving DecidableEq, Repr

/-- The texts a trace shows, read with libharu's rules: `BeginText` resets the
text position, `MoveTextPos` moves it by an offset, `SetFontAndSize` selects
the font, and `ShowText` shows its argument at the current position. -/
def text_placements_from : text_cursor → List HPDF_call → List text_placement
  | _, [] => []
  | c, HPDF_call.BeginText :: cs => text_placements_from { c with x := 0, y := 0 } cs
  | c, HPDF_call.SetFontAndSize f s :: cs =>
    text_placements_from { c with font := some (f, s) } cs
  | c, HPDF_call.MoveTextPos dx dy :: cs =>
    text_placements_from { c with x := c.x + dx, y := c.y + dy } cs
  | c, HPDF_call.ShowText t :: cs =>
    match c.font with
    | some (f, s) =>
      { font := f, size := s, x := c.x, y := c.y, text := t } :: text_placements_from c cs
    | none => text_placements_from c cs
  | c, HPDF_call.SetWidth _ :: cs => text_placements_from c cs
  | c, HPDF_call.SetHeight _ :: cs => text_placements_from c cs
  | c, HPDF_call.EndText :: cs => text_placements_from c cs
  | c, HPDF_call.SetRGBStroke _ _ _ :: cs => text_placements_from c cs
  | c, HPDF_call.Rectangle _ _ _ _ :: cs => text_placements_from c cs
  | c, HPDF_call.Stroke :: cs => text_placements_from c cs

/-- The texts a page trace shows, from the initial text state. -/
def text_placements (calls : List HPDF_call) : List text_placement :=
  text_placements_from { font := none, x := 0, y := 0 } calls

/-- Whether a call belongs to the drawing of a border: stroke colour,
rectangle path, stroke. -/
def is_border_call : HPDF_call → Bool
  | HPDF_call.SetRGBStroke _ _ _ => true
  | HPDF_call.Rectangle _ _ _ _ => true
  | HPDF_call.Stroke => true
  | _ => false

/-- A trace without its border drawing calls. -/
def strip_border_calls (calls : List HPDF_call) : List HPDF_call :=
  calls.filter fun c => !is_border_call c

/-- The rectangles a trace draws, as (x, y, width, height). -/
def rectangles : List HPDF_call → List (Int × Int × Int × Int)
  | [] => []
  | HPDF_call.Rectangle x y w h :: cs => (x, y, w, h) :: rectangles cs
  | _ :: cs => rectangles cs

/-- The placement `generate_pdf` makes for component `i`: the font and code
point the table `maps` gives its class, at the transformed position. -/
def placement_of (data : JBDATA) (maps : List mapping) (dir : String) (i : Nat) :
    text_placement :=
  let m := maps.getD (numaGetIValue data.naclass i).toNat
    { iclass := 0, code_point := 0, font_num := 0, used := 0 }
  { font := { dir := dir, index := m.font_num },
    size := 100,
    x := (ptaGetIPt data.ptaul i).1,
    y := data.h - (ptaGetIPt data.ptaul i).2 - data.latticeh,
    text := [m.code_point] }

/-- The components of page `j`, in component order. -/
def instances_of_page (data : JBDATA) (j : Nat) : List Nat :=
  (List.range (numaGetCount data.naclass)).filter fun i =>
    decide (numaGetIValue data.napage i = (j : Int))

/-! ### What libharu receives -/

/-- A leptonica 1 bpp image: width, height and the pixel at (x, y). -/
structure PIX where
  w : Int
  h : Int
  pixel : Int → Int → Nat

/-- The leptonica call `pixAddBorderGeneral`: NULL (`none`) for a negative
border width; otherwise the source image set at (`left`, `top`) in an image
that is `left + right` wider and `top + bot` higher, the border filled with
`val`. -/
def pixAddBorderGeneral (pixs : PIX) (left right top bot : Int) (val : Nat) : Option PIX :=
  if left < 0 ∨ right < 0 ∨ top < 0 ∨ bot < 0 then none
  else some
    { w := pixs.w + left + right,
      h := pixs.h + top + bot,
      pixel := fun x y =>
        if left ≤ x ∧ x < left + pixs.w ∧ top ≤ y ∧ y < top + pixs.h then
          pixs.pixel (x - left) (y - top)
        else val }

/-- The border widths (left, right, top, bottom) that `generate_fonts` passes
for the template `pix_clone`. `wp1` and `hp1` are `double` in C; the values
are 32-bit integers, which a `double` holds exactly. -/
def border_widths (data : JBDATA) (pix_clone : PIX) : Int × Int × Int × Int :=
  let wp1 := pix_clone.w
  let hp1 := pix_clone.h
  (0, data.latticew - wp1, 0, data.latticeh - hp1)

/-- The padding step of `generate_fonts` for one template: `pix_padded`, or
`none` when the program stops with "Failed to add border to image." -/
def pad_template (data : JBDATA) (pix_clone : PIX) : Option PIX :=
  let b := border_widths data pix_clone
  pixAddBorderGeneral pix_clone b.1 b.2.1 b.2.2.1 b.2.2.2 0

/-! ## The workspace in main (smoothscan.c, lines 68-90) -/

/-- The fields of the C `struct args` that `main` reads after validation. A
NULL string is `none`. -/
structure args where
  num_input_files : Int
  outname : String
  debug_tmpdir : Option String
  debug_draw_borders : Int
  debug_skip_font_gen : Int
  debug_no_clean_tmpdir : Int
  deriving DecidableEq, Repr

/-- The directory name `generate_fonts` returns: the `mkdtemp` result
`made` when `dir` is NULL, and `dir` itself otherwise. -/
def generate_fonts_dirname (dir : Option String) (made : String) : String :=
  match dir with
  | none => made
  | some d => d

/-- The value of `tmpdirname` in `main` when `generate_pdf` is called. -/
def main_tmpdirname (a : args) (made : String) : Option String :=
  if a.debug_skip_font_gen = 0 then
    some (generate_fonts_dirname a.debug_tmpdir made)
  else none

/-- The call of `generate_pdf` in `main`, after `register_mappings`. -/
def main_generate_pdf (a : args) (data : JBDATA) (made : String) : Option HPDF_Doc :=
  match register_mappings data with
  | none => none
  | some (num_fonts, maps) =>
    generate_pdf a.outname (main_tmpdirname a made) (num_fonts : Int)
      a.num_input_files data maps a.debug_draw_borders

/-! ## Sample inputs -/

/-- A dictionary with `n` classes and one component per class, all on page 0
at the origin. -/
def jbdata_of_classes (n : Nat) : JBDATA :=
  { w := 600, h := 800, nclass := (n : Int), latticew := 20, latticeh := 20,
    naclass := List.map Int.ofNat (List.range n),
    napage := List.replicate n 0,
    ptaul := List.replicate n (0, 0) }

/-- One page of 600 x 800 with lattice 20 x 20: three components of two
classes. -/
def sample_data : JBDATA :=
  { w := 600, h := 800, nclass := 2, latticew := 20, latticeh := 20,
    naclass := [0, 1, 0],
    napage := [0, 0, 0],
    ptaul := [(10, 30), (40, 30), (70, 30)] }

/-- Debug run on an existing workspace: explicit directory, font generation
skipped. -/
def sample_args : args :=
  { num_input_files := 1, outname := "out.pdf", debug_tmpdir := some "/tmp/ws",
    debug_draw_borders := 0, debug_skip_font_gen := 1, debug_no_clean_tmpdir := 1 }

/-- A template of 12 x 15 pixels, all set. -/
def sample_pix : PIX :=
  { w := 12, h := 15, pixel := fun _ _ => 1 }

/-! ## validate_args (smoothscan.c, lines 751-799) -/

/-- How a C function that may call `error_quit` ends: it returns a value, it
stops the program through `error_quit` with a message, or it makes an access
that C leaves undefined. -/
inductive outcome (α : Type) where
  | returned (v : α)
  | error_quit (msg : String)
  | undefined
  deriving DecidableEq, Repr

/-- The fields of the C `struct args` that `validate_args` reads. A NULL
pointer is `none`. `thresh` and `weight` are `double` in C and are compared
here as rationals; a NaN, which fails no C comparison, has no counterpart
here. -/
structure cli_args where
  num_input_files : Int
  input_files : Option (List String)
  outname : Option String
  thresh : Rat
  weight : Rat
  deriving DecidableEq, Repr

/-- The loop of `validate_args` over the input files with the indices `is`:
`file_exists` is the C function of that name, the answer of `access`. -/
def check_input_files (file_exists : String → Bool) (input_files : List String) :
    List Nat → outcome Unit
  | [] => outcome.returned ()
  | i :: is =>
    match input_files[i]? with
    | none => outcome.undefined
    | some f =>
      if !file_exists f then outcome.error_quit "Input file doesn't exist."
      else check_input_files file_exists input_files is

/-- The C function `validate_args`. `reply` is the character `scanf` reads for
the overwrite question, `none` when it reads nothing (`c` keeps `'n'`). -/
def validate_args (file_exists : String → Bool) (reply : Option Char) (a : cli_args) :
    outcome Int :=
  if a.num_input_files ≤ 0 ∨ a.input_files = none then
    outcome.error_quit "No input files specified."
  else
    match a.outname with
    | none => outcome.error_quit "No output file specified."
    | some outname =>
      match check_input_files file_exists (a.input_files.getD [])
          (List.range a.num_input_files.toNat) with
      | outcome.undefined => outcome.undefined
      | outcome.error_quit msg => outcome.error_quit msg
      | outcome.returned _ =>
        if a.thresh < 4 / 10 ∨ a.thresh > 98 / 100 then
          outcome.error_quit "Threshold parameter must be in the range [0.4 - 0.98]"
        else if a.weight < 0 ∨ a.weight > 1 then
          outcome.error_quit "Weight must be in range [0.0 - 1.0]"
        else if file_exists outname then
          let c : Char := reply.getD 'n'
          if c ≠ 'Y' ∧ c ≠ 'y' then outcome.error_quit "Output file exists."
          else outcome.returned 0
        else outcome.returned 0

/-- The argument sets the header comment of `validate_args` calls valid: at
least one input file, each of them readable, an output name, `thresh` in
[0.4, 0.98], `weight` in [0.0, 1.0], and the output file absent or its
overwriting confirmed with `y` or `Y`. -/
def passes_all_checks (file_exists : String → Bool) (reply : Option Char) (a : cli_args) :
    Prop :=
  ∃ input_files outname,
    a.input_files = some input_files ∧ a.outname = some outname ∧
    0 < a.num_input_files ∧ input_files.length = a.num_input_files.toNat ∧
    (∀ f, f ∈ input_files → file_exists f = true) ∧
    4 / 10 ≤ a.thresh ∧ a.thresh ≤ 98 / 100 ∧ 0 ≤ a.weight ∧ a.weight ≤ 1 ∧
    (file_exists outname = false ∨ reply = some 'y' ∨ reply = some 'Y')

/-! ## num_digits and create_font_from_dir (smoothscan.c, lines 185-261) -/

/-- The `while` loop of `num_digits`: `a /= 10; n++` as long as `a > 0`. The
C division of `int` truncates. -/
def num_digits_loop (a n : Int) : Int :=
  if 0 < a then num_digits_loop (a.tdiv 10) (n + 1) else n
termination_by a.toNat
decreasing_by
  have h : a.tdiv 10 = a / 10 := Int.tdiv_eq_ediv (by omega) (by decide)
  rw [h]
  omega

/-- The C function `num_digits`. -/
def num_digits (a : Int) : Int :=
  if a = 0 then 1 else num_digits_loop a 0

/-- What the conversion `%d` of `sprintf` writes for `v`: the decimal digits,
with a minus sign before them for a negative value. -/
def format_d (v : Int) : String := v.repr

/-- The C function `strlen` on a string without NUL, each character standing
for one byte. -/
def strlen (s : String) : Int := (s.length : Int)

/-- The value of `commandlen` in `create_font_from_dir`. -/
def commandlen (dirname fontname : String) (latticeh latticew fontnum : Int) : Int :=
  strlen "smoothscan-fontgen.py" + 1 + strlen dirname + 1 +
  strlen fontname + 1 + num_digits latticeh + 1 +
  num_digits latticew + 1 + num_digits fontnum

/-- The string `sprintf` writes into `command` for the format
`smoothscan-fontgen.py %s %s %d %d %d`. -/
def command (dirname fontname : String) (latticeh latticew fontnum : Int) : String :=
  "smoothscan-fontgen.py " ++ dirname ++ " " ++ fontname ++ " " ++ format_d latticeh ++
    " " ++ format_d latticew ++ " " ++ format_d fontnum

/-! ## The font directories of generate_fonts (smoothscan.c, lines 324-369) -/

/-- A font directory of `generate_fonts`: the name `<dir>/<index, printed
with %08d>`. -/
structure font_dir where
  dir : String
  index : Nat
  deriving DecidableEq, Repr

/-- The array `fontdirlens` after the first loop of `generate_fonts`. -/
def fontdirlens (dirnamelen : Int) (num_fonts : Int) : List Int :=
  (List.range num_fonts.toNat).map fun _ => dirnamelen + 1 + 8

/-- The array `fontdirnames` after the first loop of `generate_fonts`. -/
def fontdirnames (dirname : String) (num_fonts : Int) : List font_dir :=
  (List.range num_fonts.toNat).map fun i => { dir := dirname, index := i }

/-- The file `generate_fonts` writes for a template: the directory of its font,
its code point (the name is `<code point, printed with %03d>.png`), and the
value of `filenamelen`. -/
structure glyph_file where
  font : font_dir
  code_point : Nat
  filenamelen : Int
  deriving DecidableEq, Repr

/-- The lookups of the template loop of `generate_fonts` for template `i`:
`maps[i]`, then `fontdirlens[fontn]` and `fontdirnames[fontn]`. -/
def glyph_file_of (maps : List mapping) (dirname : String) (num_fonts : Int) (i : Nat) :
    Option glyph_file :=
  match maps[i]? with
  | none => none
  | some m =>
    let fontn := m.font_num
    let code_point := m.code_point
    match (fontdirlens (strlen dirname) num_fonts)[fontn]? with
    | none => none
    | some len =>
      match (fontdirnames dirname num_fonts)[fontn]? with
      | none => none
      | some name =>
        some { font := name, code_point := code_point, filenamelen := len + 1 + 3 + 4 }

/-- The font lookup `fonts[maps[iclass].font_num]` of `generate_pdf` for class
`iclass`. -/
def font_of_class (maps : List mapping) (fonts : List HPDF_Font) (iclass : Nat) :
    Option HPDF_Font :=
  match maps[iclass]? with
  | none => none
  | some m => fonts[m.font_num]?

/-- Validated arguments: two readable pages, output `out.pdf`, the default
threshold 0.85 and weight 0.5. -/
def sample_cli_args : cli_args :=
  { num_input_files := 2, input_files := some ["p1.tif", "p2.tif"],
    outname := some "out.pdf", thresh := 85 / 100, weight := 1 / 2 }

/-- A file system in which the two pages exist and `out.pdf` does not. -/
def sample_file_exists (f : String) : Bool :=
  f = "p1.tif" || f = "p2.tif"

theorem usable_at_zero : usable_at 0 = first_code_point := by
  simp [usable_at, first_code_point]

theorem usable_at_eq_max (k : Nat) (hk : k < 221) :
    usable_at k = max_code_point ↔ k = 220 := by
  unfold usable_at max_code_point
  split_ifs <;> omega

theorem next_usable_at (k : Nat) (hk : k < 220) :
    next_code_point (usable_at k) = usable_at (k + 1) := by
  unfold next_code_point usable_at
  split_ifs <;> omega

theorem table_after_length (L s : Nat) : (table_after L s).length = L := by
  simp [table_after]

theorem table_after_getElem? (L s i : Nat) (hi : i < L) :
    (table_after L s)[i]? =
      some (if i < s then assigned i
            else { iclass := 0, code_point := 0, font_num := 0, used := 0 }) := by
  simp [table_after, List.getElem?_range hi]

theorem table_after_set (L s : Nat) (hs : s < L) :
    (table_after L s).set s (assigned s) = table_after L (s + 1) := by
  apply List.ext_getElem?
  intro i
  by_cases hi : i < L
  · rw [table_after_getElem? L (s + 1) i hi]
    by_cases his : s = i
    · subst his
      simp [table_after_length, hs]
    · rw [List.getElem?_set_ne his, table_after_getElem? L s i hi]
      have h1 : (i < s + 1) = (i < s) := by
        apply propext; omega
      simp only [h1]
  · have h1 : ((table_after L s).set s (assigned s)).length ≤ i := by
      simp [table_after_length]; omega
    have h2 : (table_after L (s + 1)).length ≤ i := by
      simp [table_after_length]; omega
    rw [List.getElem?_eq_none h1, List.getElem?_eq_none h2]

theorem register_step_state_after (L s : Nat) (hs : s < L) :
    register_step (state_after L s) s = some (state_after L (s + 1)) := by
  have hmod : s % 221 < 221 := Nat.mod_lt _ (by decide)
  unfold register_step
  simp only [state_after, table_after_getElem? L s s hs, lt_irrefl, if_false]
  have hset := table_after_set L s hs
  unfold assigned at hset
  simp only [ne_eq, not_true_eq_false, if_false, hset]
  by_cases hmax : s % 221 = 220
  · have h1 : usable_at (s % 221) = max_code_point := (usable_at_eq_max _ hmod).2 hmax
    have h2 : (s + 1) % 221 = 0 := by omega
    have h3 : (s + 1) / 221 = s / 221 + 1 := by omega
    simp [h1, h2, h3, usable_at_zero]
  · have h1 : ¬ usable_at (s % 221) = max_code_point := fun h =>
      hmax ((usable_at_eq_max _ hmod).1 h)
    have h2 : (s + 1) % 221 = s % 221 + 1 := by omega
    have h3 : (s + 1) / 221 = s / 221 := by omega
    simp [h1, h2, h3, next_usable_at (s % 221) (by omega)]

theorem register_loop_range' (L : Nat) : ∀ (n s : Nat), s + n ≤ L →
    register_loop (List.range' s n) (state_after L s) = some (state_after L (s + n)) := by
  intro n
  induction n with
  | zero => intro s _; simp [register_loop]
  | succ n ih =>
    intro s h
    rw [List.range'_succ, register_loop, register_step_state_after L s (by omega)]
    simp only
    rw [ih (s + 1) (by omega)]
    congr 2
    omega

theorem fresh_maps_eq (L : Nat) : fresh_maps L = table_after L 0 := by
  apply List.ext_getElem?
  intro i
  by_cases hi : i < L
  · rw [table_after_getElem? L 0 i hi]
    simp [fresh_maps, List.getElem?_replicate, hi]
  · rw [List.getElem?_eq_none, List.getElem?_eq_none]
    · simp [table_after_length]; omega
    · simp [fresh_maps]; omega

theorem register_mappings_eq (data : JBDATA)
    (h : data.nclass.toNat ≤ data.naclass.length) :
    register_mappings data =
      some (data.nclass.toNat / 221 + 1,
            table_after data.naclass.length data.nclass.toNat) := by
  unfold register_mappings
  have h0 : ({ maps := fresh_maps (numaGetCount data.naclass),
               code_point := first_code_point, font_num := 0 } : alloc_state)
      = state_after data.naclass.length 0 := by
    simp [state_after, fresh_maps_eq, numaGetCount, usable_at_zero]
  simp only [h0, List.range_eq_range']
  rw [register_loop_range' _ _ 0 (by omega)]
  simp [state_after]


theorem usable_at_injective (a b : Nat) (ha : a < 221) (hb : b < 221)
    (h : usable_at a = usable_at b) : a = b := by
  unfold usable_at at h
  split_ifs at h <;> omega

set_option maxRecDepth 100000 in
theorem usable_code_points_eq : usable_code_points = (List.range 221).map usable_at := by
  decide

theorem usable_code_points_getElem? (k : Nat) (hk : k < 221) :
    usable_code_points[k]? = some (usable_at k) := by
  rw [usable_code_points_eq]
  simp [List.getElem?_range hk]

theorem jbdata_of_classes_ok (n : Nat) :
    (jbdata_of_classes n).nclass.toNat ≤ (jbdata_of_classes n).naclass.length := by
  simp [jbdata_of_classes]

/-- C1 (the code departs from the claim): with 221 symbol classes, which fill
one font exactly, `register_mappings` returns 2 fonts where
`ceil (221 / 221) = 1` font is needed; with 0 classes it returns 1 font, not 0. -/
theorem register_mappings_count_at_full_font :
    (register_mappings (jbdata_of_classes 221)).map Prod.fst = some 2 ∧
    (register_mappings (jbdata_of_classes 0)).map Prod.fst = some 1 ∧
    (221 + 221 - 1) / 221 = 1 ∧ (0 + 221 - 1) / 221 = 0 := by
  refine ⟨?_, ?_, by decide, by decide⟩
  · rw [register_mappings_eq _ (jbdata_of_classes_ok 221)]
    simp [jbdata_of_classes]
  · rw [register_mappings_eq _ (jbdata_of_classes_ok 0)]
    simp [jbdata_of_classes]

theorem table_after_succ (L s : Nat) :
    table_after (L + 1) s = table_after L s ++
      [if L < s then assigned L
       else { iclass := 0, code_point := 0, font_num := 0, used := 0 }] := by
  simp [table_after, List.range_succ]

theorem classes_of_font_table (L N f : Nat) :
    classes_of_font (table_after L N) f =
      (List.range' (221 * f) (min (min L N) (221 * f + 221) - 221 * f)).map assigned := by
  induction L with
  | zero => simp [classes_of_font, table_after]
  | succ L ih =>
    rw [table_after_succ]
    unfold classes_of_font at ih ⊢
    rw [List.filter_append, ih]
    by_cases h : L < N ∧ L / 221 = f
    · obtain ⟨h1, h2⟩ := h
      have hc : min (min (L + 1) N) (221 * f + 221) - 221 * f
          = (min (min L N) (221 * f + 221) - 221 * f) + 1 := by omega
      have hL : 221 * f + (min (min L N) (221 * f + 221) - 221 * f) = L := by omega
      rw [hc, List.range'_concat, List.map_append, Nat.one_mul, hL]
      simp [h1, h2, assigned]
    · have hc : min (min (L + 1) N) (221 * f + 221) - 221 * f
          = min (min L N) (221 * f + 221) - 221 * f := by omega
      rw [hc]
      by_cases h1 : L < N
      · have h2 : ¬ L / 221 = f := fun h2 => h ⟨h1, h2⟩
        simp [h1, h2, assigned]
      · simp [h1]

theorem map_assigned_code_points (f c : Nat) (hc : c ≤ 221) :
    ((List.range' (221 * f) c).map assigned).map (fun m => m.code_point)
      = usable_code_points.take c := by
  rw [usable_code_points_eq, ← List.map_take, List.take_range, List.map_map]
  have hmin : min c 221 = c := by omega
  rw [hmin, List.range_eq_range']
  apply List.ext_getElem
  · simp
  · intro i h1 h2
    simp only [List.length_map, List.length_range'] at h1
    simp only [List.getElem_map, List.getElem_range', Function.comp, assigned]
    congr 1
    omega

theorem table_after_assigned (L N i : Nat) (hN : N ≤ L) (hi : i < N) :
    (table_after L N)[i]? = some (assigned i) := by
  rw [table_after_getElem? L N i (by omega)]
  simp [hi]

theorem register_mappings_table (data : JBDATA)
    (h : data.nclass.toNat ≤ data.naclass.length) :
    (register_mappings data).map Prod.snd =
      some (table_after data.naclass.length data.nclass.toNat) := by
  rw [register_mappings_eq data h]
  rfl

theorem classes_of_font_length (L N f : Nat) (hN : N ≤ L) :
    (classes_of_font (table_after L N) f).length = min N (221 * f + 221) - 221 * f := by
  rw [classes_of_font_table]
  simp only [List.length_map, List.length_range']
  omega

/-- C2: `register_mappings` puts class `i` in font `i / 221` at element
`i % 221` of the usable sequence 33..126, 128..153, 155..255. So every font
before the last holds exactly 221 classes, the last one the remaining
`N % 221`, each font holds a run of consecutive class indices in class order,
and its code points are a prefix of the usable sequence. -/
theorem register_mappings_layout (data : JBDATA)
    (h : data.nclass.toNat ≤ data.naclass.length) :
    ∃ maps, (register_mappings data).map Prod.snd = some maps ∧
      (∀ i, i < data.nclass.toNat →
        ∃ m, maps[i]? = some m ∧ m.font_num = i / 221 ∧
          usable_code_points[i % 221]? = some m.code_point) ∧
      (∀ f, f < data.nclass.toNat / 221 → (classes_of_font maps f).length = 221) ∧
      (classes_of_font maps (data.nclass.toNat / 221)).length = data.nclass.toNat % 221 ∧
      (∀ f, (classes_of_font maps f).map (fun m => m.iclass) =
        (List.range' (221 * f) (classes_of_font maps f).length).map Int.ofNat) ∧
      (∀ f, (classes_of_font maps f).map (fun m => m.code_point) =
        usable_code_points.take (classes_of_font maps f).length) := by
  refine ⟨_, register_mappings_table data h, ?_, ?_, ?_, ?_, ?_⟩
  · intro i hi
    refine ⟨assigned i, table_after_assigned _ _ i h hi, rfl, ?_⟩
    exact usable_code_points_getElem? _ (Nat.mod_lt _ (by decide))
  · intro f hf
    rw [classes_of_font_length _ _ _ h]
    omega
  · rw [classes_of_font_length _ _ _ h]
    omega
  · intro f
    rw [classes_of_font_length _ _ _ h, classes_of_font_table, List.map_map]
    have hm : min (min data.naclass.length data.nclass.toNat) (221 * f + 221) - 221 * f
        = min data.nclass.toNat (221 * f + 221) - 221 * f := by omega
    rw [hm]
    rfl
  · intro f
    rw [classes_of_font_length _ _ _ h, classes_of_font_table]
    have hm : min (min data.naclass.length data.nclass.toNat) (221 * f + 221) - 221 * f
        = min data.nclass.toNat (221 * f + 221) - 221 * f := by omega
    rw [hm]
    exact map_assigned_code_points f _ (by omega)

/-- Witness for C2, the 250-class scenario: font 0 holds 221 classes and
font 1 the remaining 29. -/
theorem register_mappings_layout_witness :
    (jbdata_of_classes 250).nclass.toNat ≤ (jbdata_of_classes 250).naclass.length ∧
    ∃ maps, (register_mappings (jbdata_of_classes 250)).map Prod.snd = some maps ∧
      (classes_of_font maps 0).length = 221 ∧ (classes_of_font maps 1).length = 29 := by
  refine ⟨jbdata_of_classes_ok 250, ?_⟩
  obtain ⟨maps, h1, _, h3, h4, _, _⟩ :=
    register_mappings_layout (jbdata_of_classes 250) (jbdata_of_classes_ok 250)
  have hn : (jbdata_of_classes 250).nclass.toNat = 250 := rfl
  rw [hn] at h3 h4
  exact ⟨maps, h1, h3 0 (by decide), h4⟩

/-- C3: after `register_mappings` every class index below the class count is
marked used, and two class indices whose entries have the same font number and
the same code point are the same index. -/
theorem register_mappings_injective (data : JBDATA)
    (h : data.nclass.toNat ≤ data.naclass.length) :
    ∃ maps, (register_mappings data).map Prod.snd = some maps ∧
      (∀ i, i < data.nclass.toNat → ∃ m, maps[i]? = some m ∧ m.used = 1) ∧
      (∀ i j mi mj, i < data.nclass.toNat → j < data.nclass.toNat →
        maps[i]? = some mi → maps[j]? = some mj →
        (mi.font_num, mi.code_point) = (mj.font_num, mj.code_point) → i = j) := by
  refine ⟨_, register_mappings_table data h, ?_, ?_⟩
  · intro i hi
    exact ⟨assigned i, table_after_assigned _ _ i h hi, rfl⟩
  · intro i j mi mj hi hj hmi hmj hpair
    rw [table_after_assigned _ _ i h hi] at hmi
    rw [table_after_assigned _ _ j h hj] at hmj
    cases hmi
    cases hmj
    simp only [assigned, Prod.mk.injEq] at hpair
    have hmod := usable_at_injective _ _ (Nat.mod_lt i (by decide))
      (Nat.mod_lt j (by decide)) hpair.2
    omega

/-- Witness for C3: three classes. -/
theorem register_mappings_injective_witness :
    (jbdata_of_classes 3).nclass.toNat ≤ (jbdata_of_classes 3).naclass.length ∧
    ∃ maps, (register_mappings (jbdata_of_classes 3)).map Prod.snd = some maps ∧
      (∀ i, i < (jbdata_of_classes 3).nclass.toNat → ∃ m, maps[i]? = some m ∧ m.used = 1) ∧
      (∀ i j mi mj, i < (jbdata_of_classes 3).nclass.toNat →
        j < (jbdata_of_classes 3).nclass.toNat →
        maps[i]? = some mi → maps[j]? = some mj →
        (mi.font_num, mi.code_point) = (mj.font_num, mj.code_point) → i = j) :=
  ⟨jbdata_of_classes_ok 3, register_mappings_injective (jbdata_of_classes 3) (jbdata_of_classes_ok 3)⟩

theorem enumerate_from_usable : ∀ (fuel k : Nat), k ≤ 220 → 220 - k ≤ fuel →
    enumerate_from fuel (usable_at k) = (List.range' k (221 - k)).map usable_at := by
  intro fuel
  induction fuel with
  | zero =>
    intro k hk hf
    have hk220 : k = 220 := by omega
    subst hk220
    rfl
  | succ fuel ih =>
    intro k hk hf
    unfold enumerate_from
    by_cases hmax : usable_at k = max_code_point
    · have hk220 : k = 220 := (usable_at_eq_max k (by omega)).1 hmax
      subst hk220
      rfl
    · have hk220 : k < 220 := by
        rcases Nat.lt_or_ge k 220 with h | h
        · exact h
        · exact absurd ((usable_at_eq_max k (by omega)).2 (by omega)) hmax
      have hlen : 221 - k = (221 - (k + 1)) + 1 := by omega
      rw [if_neg hmax, next_usable_at k hk220, ih (k + 1) (by omega) (by omega), hlen,
        List.range'_succ, List.map_cons]

theorem usable_at_strictMono (a b : Nat) (h : a < b) : usable_at a < usable_at b := by
  unfold usable_at
  split_ifs <;> omega

/-- C4: with enough steps allowed, starting at `first_code_point` and applying
`next_code_point` until `max_code_point` is reached lists exactly the 221
usable code points 33..126, 128..153, 155..255: from 33 to 255, strictly
increasing, within [33, 255], and without 127 and 154. -/
theorem enumerate_code_points_usable (fuel : Nat) (hfuel : 220 ≤ fuel) :
    enumerate_code_points fuel = usable_code_points ∧
    (enumerate_code_points fuel).length = 221 ∧
    (enumerate_code_points fuel).head? = some first_code_point ∧
    (enumerate_code_points fuel).getLast? = some max_code_point ∧
    (enumerate_code_points fuel).Pairwise (fun a b => a < b) ∧
    (∀ c, c ∈ enumerate_code_points fuel → 33 ≤ c ∧ c ≤ 255 ∧ c ≠ 127 ∧ c ≠ 154) := by
  have heq : enumerate_code_points fuel = (List.range' 0 221).map usable_at := by
    unfold enumerate_code_points
    rw [← usable_at_zero]
    exact enumerate_from_usable fuel 0 (by omega) (by omega)
  have hsplit : List.range' 0 221 = 0 :: List.range' 1 220 := rfl
  have hsplit2 : List.range' 0 221 = List.range' 0 220 ++ [220] := by
    rw [show (221 : Nat) = 220 + 1 from rfl, List.range'_concat]
  refine ⟨?_, ?_, ?_, ?_, ?_, ?_⟩
  · rw [heq, usable_code_points_eq, List.range_eq_range']
  · rw [heq]; simp
  · rw [heq, hsplit]; rfl
  · rw [heq, hsplit2, List.map_append]
    simp [usable_at, max_code_point]
  · rw [heq]
    apply List.Pairwise.map usable_at usable_at_strictMono
    exact List.pairwise_lt_range' 0 221
  · intro c hc
    rw [heq] at hc
    obtain ⟨k, hk, rfl⟩ := List.mem_map.1 hc
    have hk221 : k < 221 := by
      have := List.mem_range'_1.1 hk
      omega
    unfold usable_at
    split_ifs <;> omega

/-- Witness for C4: 256 steps, one per `unsigned char` value, are enough. -/
theorem enumerate_code_points_usable_witness :
    220 ≤ 256 ∧
    enumerate_code_points 256 = usable_code_points ∧
    (enumerate_code_points 256).length = 221 ∧
    (enumerate_code_points 256).head? = some first_code_point ∧
    (enumerate_code_points 256).getLast? = some max_code_point ∧
    (enumerate_code_points 256).Pairwise (fun a b => a < b) ∧
    (∀ c, c ∈ enumerate_code_points 256 → 33 ≤ c ∧ c ≤ 255 ∧ c ≠ 127 ∧ c ≠ 154) :=
  ⟨by decide, enumerate_code_points_usable 256 (by decide)⟩

theorem compose_instance_skip (data : JBDATA) (maps : List mapping) (fonts : List HPDF_Font)
    (b : Int) (j i : Nat) (h : numaGetIValue data.napage i ≠ (j : Int)) :
    compose_instance data maps fonts b j i = some [] := by
  simp [compose_instance, h]

theorem compose_instance_match (data : JBDATA) (maps : List mapping) (fonts : List HPDF_Font)
    (b : Int) (j i : Nat) (m : mapping) (font : HPDF_Font)
    (hpage : numaGetIValue data.napage i = (j : Int))
    (hclass : 0 ≤ numaGetIValue data.naclass i)
    (hm : maps[(numaGetIValue data.naclass i).toNat]? = some m)
    (hf : fonts[m.font_num]? = some font) :
    compose_instance data maps fonts b j i =
      some ([HPDF_call.BeginText,
             HPDF_call.SetFontAndSize font 100,
             HPDF_call.MoveTextPos (ptaGetIPt data.ptaul i).1
               ((data.h - (ptaGetIPt data.ptaul i).2) - data.latticeh),
             HPDF_call.ShowText (c_string [m.code_point, 0]),
             HPDF_call.EndText] ++
            (if b ≠ 0 then
              [HPDF_call.SetRGBStroke 1 0 0,
               HPDF_call.Rectangle (ptaGetIPt data.ptaul i).1
                 ((data.h - (ptaGetIPt data.ptaul i).2) - data.latticeh)
                 data.latticew data.latticeh,
               HPDF_call.Stroke]
             else [])) := by
  have hc : ¬ numaGetIValue data.naclass i < 0 := by omega
  simp only [compose_instance, hpage, ne_eq, not_true_eq_false, if_false, hc, hm, hf]
  simp

theorem compose_instance_some (data : JBDATA) (maps : List mapping) (fonts : List HPDF_Font)
    (b : Int) (j i : Nat) (out : List HPDF_call)
    (h : compose_instance data maps fonts b j i = some out) :
    (numaGetIValue data.napage i ≠ (j : Int) ∧ out = []) ∨
    (numaGetIValue data.napage i = (j : Int) ∧ ∃ m font,
      0 ≤ numaGetIValue data.naclass i ∧
      maps[(numaGetIValue data.naclass i).toNat]? = some m ∧
      fonts[m.font_num]? = some font) := by
  by_cases hpage : numaGetIValue data.napage i = (j : Int)
  · right
    refine ⟨hpage, ?_⟩
    by_cases hc : numaGetIValue data.naclass i < 0
    · simp [compose_instance, hpage, hc] at h
    · cases hm : maps[(numaGetIValue data.naclass i).toNat]? with
      | none => simp [compose_instance, hpage, hc, hm] at h
      | some m =>
        cases hf : fonts[m.font_num]? with
        | none => simp [compose_instance, hpage, hc, hm, hf] at h
        | some font => exact ⟨m, font, by omega, rfl, hf⟩
  · left
    rw [compose_instance_skip _ _ _ _ _ _ hpage] at h
    exact ⟨hpage, (Option.some.inj h).symm⟩

theorem c_string_code_point (cp : Nat) (h : cp ≠ 0) : c_string [cp, 0] = [cp] := by
  simp [c_string, List.takeWhile, h]

theorem load_fonts_getElem? (dir : String) (num_fonts : Int) (k : Nat)
    (hk : k < num_fonts.toNat) :
    (load_fonts dir num_fonts)[k]? = some { dir := dir, index := k } := by
  simp [load_fonts, List.getElem?_range hk]

theorem load_fonts_getElem?_some (dir : String) (num_fonts : Int) (k : Nat) (font : HPDF_Font)
    (h : (load_fonts dir num_fonts)[k]? = some font) :
    font = { dir := dir, index := k } := by
  have hk : k < num_fonts.toNat := by
    have := (List.getElem?_eq_some_iff.1 h).1
    simpa [load_fonts] using this
  rw [load_fonts_getElem? dir num_fonts k hk] at h
  exact (Option.some.inj h).symm

theorem loop_collect_placements (data : JBDATA) (maps : List mapping) (dir : String)
    (num_fonts : Int) (b : Int) (j : Nat) :
    ∀ l : List Nat,
    (∀ i, i ∈ l → 0 ≤ numaGetIValue data.naclass i ∧
      ∃ m, maps[(numaGetIValue data.naclass i).toNat]? = some m ∧
        m.font_num < num_fonts.toNat ∧ m.code_point ≠ 0) →
    ∃ calls, loop_collect (compose_instance data maps (load_fonts dir num_fonts) b j) l
        = some calls ∧
      ∀ c, text_placements_from c calls =
        (l.filter fun i => decide (numaGetIValue data.napage i = (j : Int))).map
          (placement_of data maps dir) := by
  intro l
  induction l with
  | nil => intro _; exact ⟨[], rfl, fun _ => rfl⟩
  | cons i l ih =>
    intro hok
    obtain ⟨rest, hrest, hpl⟩ := ih (fun k hk => hok k (List.mem_cons_of_mem _ hk))
    obtain ⟨hclass, m, hm, hfont, hcp⟩ := hok i (List.mem_cons_self _ _)
    by_cases hpage : numaGetIValue data.napage i = (j : Int)
    · have hci := compose_instance_match data maps (load_fonts dir num_fonts) b j i m _
        hpage hclass hm (load_fonts_getElem? dir num_fonts _ hfont)
      refine ⟨_, by rw [loop_collect, hci, hrest], ?_⟩
      intro c
      by_cases hb : b = 0
      · simp [hb, text_placements_from, hpl, hpage, placement_of, hm,
          c_string_code_point _ hcp, sub_sub]
      · simp [hb, text_placements_from, hpl, hpage, placement_of, hm,
          c_string_code_point _ hcp, sub_sub]
    · refine ⟨rest, by rw [loop_collect, compose_instance_skip _ _ _ _ _ _ hpage, hrest]; rfl, ?_⟩
      intro c
      simp [hpl, hpage]

theorem register_mappings_lookups_defined (data : JBDATA)
    (h : data.nclass.toNat ≤ data.naclass.length)
    (hcls : ∀ i, i < data.naclass.length →
      0 ≤ numaGetIValue data.naclass i ∧ numaGetIValue data.naclass i < data.nclass) :
    ∃ num_fonts maps, register_mappings data = some (num_fonts, maps) ∧
      ∀ i, i < data.naclass.length → 0 ≤ numaGetIValue data.naclass i ∧
        ∃ m, maps[(numaGetIValue data.naclass i).toNat]? = some m ∧
          m.font_num < ((num_fonts : Nat) : Int).toNat ∧ m.code_point ≠ 0 := by
  refine ⟨_, _, register_mappings_eq data h, ?_⟩
  intro i hi
  obtain ⟨h0, h1⟩ := hcls i hi
  have hlt : (numaGetIValue data.naclass i).toNat < data.nclass.toNat := by omega
  refine ⟨h0, assigned _, table_after_assigned _ _ _ h hlt, ?_, ?_⟩
  · simp only [assigned, Int.toNat_ofNat]
    omega
  · simp only [assigned, usable_at]
    split_ifs <;> omega

theorem compose_page_placements (data : JBDATA) (maps : List mapping) (dir : String)
    (num_fonts : Int) (b : Int) (j : Nat)
    (hok : ∀ i, i < data.naclass.length → 0 ≤ numaGetIValue data.naclass i ∧
      ∃ m, maps[(numaGetIValue data.naclass i).toNat]? = some m ∧
        m.font_num < num_fonts.toNat ∧ m.code_point ≠ 0) :
    ∃ page, compose_page data maps (load_fonts dir num_fonts) b j = some page ∧
      text_placements page = (instances_of_page data j).map (placement_of data maps dir) := by
  obtain ⟨calls, hcalls, hpl⟩ := loop_collect_placements data maps dir num_fonts b j
    (List.range (numaGetCount data.naclass))
    (fun i hi => hok i (by simpa [numaGetCount] using hi))
  have hpage : compose_page data maps (load_fonts dir num_fonts) b j =
      some (HPDF_call.SetWidth data.w :: HPDF_call.SetHeight data.h :: calls) := by
    rw [compose_page]
    simp only [hcalls]
  refine ⟨_, hpage, ?_⟩
  simp only [text_placements, text_placements_from, hpl, instances_of_page]

theorem compose_pages_placements (data : JBDATA) (maps : List mapping) (dir : String)
    (num_fonts : Int) (b : Int)
    (hok : ∀ i, i < data.naclass.length → 0 ≤ numaGetIValue data.naclass i ∧
      ∃ m, maps[(numaGetIValue data.naclass i).toNat]? = some m ∧
        m.font_num < num_fonts.toNat ∧ m.code_point ≠ 0) :
    ∀ js : List Nat, ∃ pages,
      compose_pages data maps (load_fonts dir num_fonts) b js = some pages ∧
      pages.map text_placements =
        js.map (fun j => (instances_of_page data j).map (placement_of data maps dir)) := by
  intro js
  induction js with
  | nil => exact ⟨[], rfl, rfl⟩
  | cons j js ih =>
    obtain ⟨pages, hpages, hpl⟩ := ih
    obtain ⟨page, hpage, hp⟩ := compose_page_placements data maps dir num_fonts b j hok
    have hcons : compose_pages data maps (load_fonts dir num_fonts) b (j :: js) =
        some (page :: pages) := by
      rw [compose_pages, hpage, hpages]
    refine ⟨page :: pages, hcons, ?_⟩
    simp [hp, hpl]

/-- C7: when every component's class indexes the table `maps`, its font is
among the `num_fonts` loaded ones and its code point is not NUL,
`generate_pdf` builds a document of exactly `num_input_files` pages, and the
texts shown on page `j` are, in component order, one single-character text per
component whose page is `j`, with the font index, code point and transformed
position of that component, and nothing else. -/
theorem generate_pdf_placements (outname dir : String) (num_fonts num_input_files : Int)
    (data : JBDATA) (maps : List mapping) (b : Int)
    (hok : ∀ i, i < data.naclass.length → 0 ≤ numaGetIValue data.naclass i ∧
      ∃ m, maps[(numaGetIValue data.naclass i).toNat]? = some m ∧
        m.font_num < num_fonts.toNat ∧ m.code_point ≠ 0) :
    ∃ d, generate_pdf outname (some dir) num_fonts num_input_files data maps b = some d ∧
      d.pages.length = num_input_files.toNat ∧
      d.pages.map text_placements =
        (List.range num_input_files.toNat).map
          (fun j => (instances_of_page data j).map (placement_of data maps dir)) := by
  obtain ⟨pages, hpages, hpl⟩ := compose_pages_placements data maps dir num_fonts b hok
    (List.range num_input_files.toNat)
  have hdoc : generate_pdf outname (some dir) num_fonts num_input_files data maps b =
      some { fonts := load_fonts dir num_fonts, pages := pages, outname := outname } := by
    rw [generate_pdf]
    simp only [hpages]
  refine ⟨_, hdoc, ?_, hpl⟩
  have hlen := congrArg List.length hpl
  simpa using hlen

theorem sample_data_ok (i : Nat) (hi : i < sample_data.naclass.length) :
    0 ≤ numaGetIValue sample_data.naclass i ∧
      ∃ m, (table_after 3 2)[(numaGetIValue sample_data.naclass i).toNat]? = some m ∧
        m.font_num < (1 : Int).toNat ∧ m.code_point ≠ 0 := by
  have hi3 : i < 3 := hi
  interval_cases i
  · exact ⟨by decide, _, rfl, by decide, by decide⟩
  · exact ⟨by decide, _, rfl, by decide, by decide⟩
  · exact ⟨by decide, _, rfl, by decide, by decide⟩

/-- Witness for C7, the end-to-end scenario: one page of 600 x 800, lattice
20 x 20, three components of two classes. The allocator gives one font; the
page shows three texts, all in font 0, with the code point of each component's
class and y = 800 - 30 - 20. -/
theorem generate_pdf_placements_witness :
    register_mappings sample_data = some (1, table_after 3 2) ∧
    ∃ d, generate_pdf "out.pdf" (some "/tmp/ws") 1 1 sample_data (table_after 3 2) 0 = some d ∧
      d.pages.length = 1 ∧
      d.pages.map text_placements =
        [[{ font := { dir := "/tmp/ws", index := 0 }, size := 100, x := 10, y := 750,
            text := [33] },
          { font := { dir := "/tmp/ws", index := 0 }, size := 100, x := 40, y := 750,
            text := [34] },
          { font := { dir := "/tmp/ws", index := 0 }, size := 100, x := 70, y := 750,
            text := [33] }]] := by
  refine ⟨by decide, ?_⟩
  obtain ⟨d, h1, h2, h3⟩ := generate_pdf_placements "out.pdf" "/tmp/ws" 1 1 sample_data
    (table_after 3 2) 0 sample_data_ok
  refine ⟨d, h1, h2, ?_⟩
  rw [h3]
  decide

theorem compose_instance_strip (data : JBDATA) (maps : List mapping) (fonts : List HPDF_Font)
    (b : Int) (j i : Nat) :
    (compose_instance data maps fonts b j i).map strip_border_calls =
      compose_instance data maps fonts 0 j i := by
  by_cases hpage : numaGetIValue data.napage i = (j : Int)
  · by_cases hc : numaGetIValue data.naclass i < 0
    · simp [compose_instance, hpage, hc]
    · cases hm : maps[(numaGetIValue data.naclass i).toNat]? with
      | none => simp [compose_instance, hpage, hc, hm]
      | some m =>
        cases hf : fonts[m.font_num]? with
        | none => simp [compose_instance, hpage, hc, hm, hf]
        | some font =>
          rw [compose_instance_match data maps fonts b j i m font hpage (by omega) hm hf,
            compose_instance_match data maps fonts 0 j i m font hpage (by omega) hm hf]
          by_cases hb : b = 0
          · simp [hb, strip_border_calls, is_border_call]
          · simp [hb, strip_border_calls, is_border_call]
  · rw [compose_instance_skip _ _ _ _ _ _ hpage, compose_instance_skip _ _ _ _ _ _ hpage]
    rfl

theorem loop_collect_strip (data : JBDATA) (maps : List mapping) (fonts : List HPDF_Font)
    (b : Int) (j : Nat) (l : List Nat) :
    (loop_collect (compose_instance data maps fonts b j) l).map strip_border_calls =
      loop_collect (compose_instance data maps fonts 0 j) l := by
  induction l with
  | nil => rfl
  | cons i l ih =>
    rw [loop_collect, loop_collect, ← compose_instance_strip data maps fonts b j i, ← ih]
    cases compose_instance data maps fonts b j i with
    | none => rfl
    | some out =>
      cases loop_collect (compose_instance data maps fonts b j) l with
      | none => rfl
      | some rest => simp [strip_border_calls]

theorem compose_page_strip (data : JBDATA) (maps : List mapping) (fonts : List HPDF_Font)
    (b : Int) (j : Nat) :
    (compose_page data maps fonts b j).map strip_border_calls =
      compose_page data maps fonts 0 j := by
  rw [compose_page, compose_page, ← loop_collect_strip data maps fonts b j]
  cases loop_collect (compose_instance data maps fonts b j)
      (List.range (numaGetCount data.naclass)) with
  | none => rfl
  | some calls => simp [strip_border_calls, is_border_call]

theorem compose_pages_strip (data : JBDATA) (maps : List mapping) (fonts : List HPDF_Font)
    (b : Int) (js : List Nat) :
    (compose_pages data maps fonts b js).map (List.map strip_border_calls) =
      compose_pages data maps fonts 0 js := by
  induction js with
  | nil => rfl
  | cons j js ih =>
    rw [compose_pages, compose_pages, ← compose_page_strip data maps fonts b j, ← ih]
    cases compose_page data maps fonts b j with
    | none => rfl
    | some page =>
      cases compose_pages data maps fonts b js with
      | none => rfl
      | some rest => rfl

theorem text_placements_from_strip (calls : List HPDF_call) :
    ∀ c, text_placements_from c (strip_border_calls calls) = text_placements_from c calls := by
  induction calls with
  | nil => intro c; rfl
  | cons a calls ih =>
    intro c
    cases a with
    | SetWidth w =>
      change text_placements_from c (HPDF_call.SetWidth w :: strip_border_calls calls) = _
      simp only [text_placements_from, ih]
    | SetHeight h =>
      change text_placements_from c (HPDF_call.SetHeight h :: strip_border_calls calls) = _
      simp only [text_placements_from, ih]
    | BeginText =>
      change text_placements_from c (HPDF_call.BeginText :: strip_border_calls calls) = _
      simp only [text_placements_from, ih]
    | SetFontAndSize f s =>
      change text_placements_from c
        (HPDF_call.SetFontAndSize f s :: strip_border_calls calls) = _
      simp only [text_placements_from, ih]
    | MoveTextPos x y =>
      change text_placements_from c (HPDF_call.MoveTextPos x y :: strip_border_calls calls) = _
      simp only [text_placements_from, ih]
    | ShowText t =>
      change text_placements_from c (HPDF_call.ShowText t :: strip_border_calls calls) = _
      simp only [text_placements_from, ih]
    | EndText =>
      change text_placements_from c (HPDF_call.EndText :: strip_border_calls calls) = _
      simp only [text_placements_from, ih]
    | SetRGBStroke r g b =>
      change text_placements_from c (strip_border_calls calls) = _
      simp only [text_placements_from, ih]
    | Rectangle x y w h =>
      change text_placements_from c (strip_border_calls calls) = _
      simp only [text_placements_from, ih]
    | Stroke =>
      change text_placements_from c (strip_border_calls calls) = _
      simp only [text_placements_from, ih]

theorem text_placements_strip (calls : List HPDF_call) :
    text_placements (strip_border_calls calls) = text_placements calls :=
  text_placements_from_strip calls _

theorem generate_pdf_strip (outname : String) (tmpdirname : Option String)
    (num_fonts num_input_files : Int) (data : JBDATA) (maps : List mapping) (b : Int) :
    (generate_pdf outname tmpdirname num_fonts num_input_files data maps b).map
        (fun d => { fonts := d.fonts, pages := d.pages.map strip_border_calls,
                    outname := d.outname : HPDF_Doc }) =
      generate_pdf outname tmpdirname num_fonts num_input_files data maps 0 := by
  cases tmpdirname with
  | none => rfl
  | some dir =>
    rw [generate_pdf, generate_pdf]
    rw [← compose_pages_strip data maps (load_fonts dir num_fonts) b]
    cases compose_pages data maps (load_fonts dir num_fonts) b
        (List.range num_input_files.toNat) with
    | none => rfl
    | some pages => rfl

theorem rectangles_strip (calls : List HPDF_call) :
    rectangles (strip_border_calls calls) = [] := by
  induction calls with
  | nil => rfl
  | cons a calls ih =>
    cases a with
    | SetWidth w =>
      change rectangles (HPDF_call.SetWidth w :: strip_border_calls calls) = _
      simp only [rectangles, ih]
    | SetHeight h =>
      change rectangles (HPDF_call.SetHeight h :: strip_border_calls calls) = _
      simp only [rectangles, ih]
    | BeginText =>
      change rectangles (HPDF_call.BeginText :: strip_border_calls calls) = _
      simp only [rectangles, ih]
    | SetFontAndSize f s =>
      change rectangles (HPDF_call.SetFontAndSize f s :: strip_border_calls calls) = _
      simp only [rectangles, ih]
    | MoveTextPos x y =>
      change rectangles (HPDF_call.MoveTextPos x y :: strip_border_calls calls) = _
      simp only [rectangles, ih]
    | ShowText t =>
      change rectangles (HPDF_call.ShowText t :: strip_border_calls calls) = _
      simp only [rectangles, ih]
    | EndText =>
      change rectangles (HPDF_call.EndText :: strip_border_calls calls) = _
      simp only [rectangles, ih]
    | SetRGBStroke r g b => exact ih
    | Rectangle x y w h => exact ih
    | Stroke => exact ih

theorem loop_collect_rectangles (data : JBDATA) (maps : List mapping) (fonts : List HPDF_Font)
    (b : Int) (hb : b ≠ 0) (j : Nat) :
    ∀ (l : List Nat) (calls : List HPDF_call),
      loop_collect (compose_instance data maps fonts b j) l = some calls →
      ∀ c, rectangles calls =
        (text_placements_from c calls).map
          (fun p => (p.x, p.y, data.latticew, data.latticeh)) := by
  intro l
  induction l with
  | nil =>
    intro calls h c
    cases h
    rfl
  | cons i l ih =>
    intro calls h c
    rw [loop_collect] at h
    cases hci : compose_instance data maps fonts b j i with
    | none => simp [hci] at h
    | some out =>
      cases hrest : loop_collect (compose_instance data maps fonts b j) l with
      | none => simp [hci, hrest] at h
      | some rest =>
        simp only [hci, hrest, Option.some.injEq] at h
        subst h
        rcases compose_instance_some data maps fonts b j i out hci with
          ⟨_, hout⟩ | ⟨hpage, m, font, hclass, hm, hf⟩
        · subst hout
          exact ih rest hrest c
        · rw [compose_instance_match data maps fonts b j i m font hpage hclass hm hf] at hci
          cases hci
          simp [hb, rectangles, text_placements_from, ← ih rest hrest]

theorem compose_pages_rectangles (data : JBDATA) (maps : List mapping) (fonts : List HPDF_Font)
    (b : Int) (hb : b ≠ 0) :
    ∀ (js : List Nat) (pages : List (List HPDF_call)),
      compose_pages data maps fonts b js = some pages →
      ∀ page, page ∈ pages → rectangles page =
        (text_placements page).map (fun p => (p.x, p.y, data.latticew, data.latticeh)) := by
  intro js
  induction js with
  | nil =>
    intro pages h page hmem
    cases h
    cases hmem
  | cons j js ih =>
    intro pages h page hmem
    rw [compose_pages] at h
    cases hp : compose_page data maps fonts b j with
    | none => simp [hp] at h
    | some first =>
      cases hrest : compose_pages data maps fonts b js with
      | none => simp [hp, hrest] at h
      | some rest =>
        simp only [hp, hrest, Option.some.injEq] at h
        subst h
        rcases List.mem_cons.1 hmem with hfirst | hin
        · subst hfirst
          rw [compose_page] at hp
          cases hl : loop_collect (compose_instance data maps fonts b j)
              (List.range (numaGetCount data.naclass)) with
          | none => simp [hl] at hp
          | some calls =>
            simp only [hl, Option.some.injEq] at hp
            subst hp
            simp only [rectangles, text_placements, text_placements_from]
            exact loop_collect_rectangles data maps fonts b hb j _ calls hl _
        · exact ih rest hrest page hin

/-- C8: with `debug_draw_borders` set, `generate_pdf` shows the same texts
(font, size, position, character) on the same pages as with the flag clear,
and is defined on the same inputs; removing the border calls from its traces
gives the traces of the run with the flag clear; each page draws one rectangle
per text shown, at that text's position, `latticew` wide and `latticeh` high;
with the flag clear no rectangle is drawn. -/
theorem generate_pdf_debug_borders (outname : String) (tmpdirname : Option String)
    (num_fonts num_input_files : Int) (data : JBDATA) (maps : List mapping) (b : Int)
    (hb : b ≠ 0) :
    (generate_pdf outname tmpdirname num_fonts num_input_files data maps b).map
        (fun d => d.pages.map text_placements) =
      (generate_pdf outname tmpdirname num_fonts num_input_files data maps 0).map
        (fun d => d.pages.map text_placements) ∧
    (generate_pdf outname tmpdirname num_fonts num_input_files data maps b).map
        (fun d => { fonts := d.fonts, pages := d.pages.map strip_border_calls,
                    outname := d.outname : HPDF_Doc }) =
      generate_pdf outname tmpdirname num_fonts num_input_files data maps 0 ∧
    (∀ d, generate_pdf outname tmpdirname num_fonts num_input_files data maps b = some d →
      ∀ page, page ∈ d.pages → rectangles page =
        (text_placements page).map (fun p => (p.x, p.y, data.latticew, data.latticeh))) ∧
    (∀ d, generate_pdf outname tmpdirname num_fonts num_input_files data maps 0 = some d →
      ∀ page, page ∈ d.pages → rectangles page = []) := by
  have hstrip := generate_pdf_strip outname tmpdirname num_fonts num_input_files data maps b
  have hstrip0 := generate_pdf_strip outname tmpdirname num_fonts num_input_files data maps 0
  refine ⟨?_, hstrip, ?_, ?_⟩
  · rw [← hstrip]
    cases generate_pdf outname tmpdirname num_fonts num_input_files data maps b with
    | none => rfl
    | some d =>
      simp only [Option.map_some', List.map_map]
      congr 1
      apply List.map_congr_left
      intro page _
      exact (text_placements_strip page).symm
  · intro d hd page hmem
    cases tmpdirname with
    | none => simp [generate_pdf] at hd
    | some dir =>
      rw [generate_pdf] at hd
      cases hp : compose_pages data maps (load_fonts dir num_fonts) b
          (List.range num_input_files.toNat) with
      | none => simp [hp] at hd
      | some pages =>
        simp only [hp, Option.some.injEq] at hd
        subst hd
        exact compose_pages_rectangles data maps _ b hb _ pages hp page hmem
  · intro d hd page hmem
    rw [hd] at hstrip0
    have hpages : d.pages.map strip_border_calls = d.pages := by
      have := Option.some.inj hstrip0
      exact congrArg HPDF_Doc.pages this
    rw [← hpages] at hmem
    obtain ⟨page0, _, rfl⟩ := List.mem_map.1 hmem
    exact rectangles_strip page0

/-- Witness for C8: the sample page with the flag set to 1. -/
theorem generate_pdf_debug_borders_witness :
    (1 : Int) ≠ 0 ∧
    (generate_pdf "out.pdf" (some "/tmp/ws") 1 1 sample_data (table_after 3 2) 1).map
        (fun d => d.pages.map text_placements) =
      (generate_pdf "out.pdf" (some "/tmp/ws") 1 1 sample_data (table_after 3 2) 0).map
        (fun d => d.pages.map text_placements) ∧
    (generate_pdf "out.pdf" (some "/tmp/ws") 1 1 sample_data (table_after 3 2) 1).map
        (fun d => d.pages.map rectangles) =
      some [[(10, 750, 20, 20), (40, 750, 20, 20), (70, 750, 20, 20)]] :=
  ⟨by decide,
   (generate_pdf_debug_borders "out.pdf" (some "/tmp/ws") 1 1 sample_data (table_after 3 2) 1
     (by decide)).1,
   by decide⟩

/-! ### Glyph padding -/

/-- C9: for a template no wider and no higher than the lattice,
`generate_fonts` asks for a border of 0 pixels on the left and on top,
`latticew - w` on the right and `latticeh - h` at the bottom; the padding
succeeds, the padded bitmap is exactly `latticew` wide and `latticeh` high,
it keeps the template's pixels in place and the added pixels are 0. -/
theorem pad_template_dimensions (data : JBDATA) (pix : PIX)
    (hw : pix.w ≤ data.latticew) (hh : pix.h ≤ data.latticeh) :
    border_widths data pix = (0, data.latticew - pix.w, 0, data.latticeh - pix.h) ∧
    ∃ padded, pad_template data pix = some padded ∧
      padded.w = data.latticew ∧ padded.h = data.latticeh ∧
      (∀ x y, 0 ≤ x → x < pix.w → 0 ≤ y → y < pix.h → padded.pixel x y = pix.pixel x y) ∧
      (∀ x y, ¬ (0 ≤ x ∧ x < pix.w ∧ 0 ≤ y ∧ y < pix.h) → padded.pixel x y = 0) := by
  refine ⟨rfl, ?_⟩
  have hneg : ¬ ((0 : Int) < 0 ∨ data.latticew - pix.w < 0 ∨ (0 : Int) < 0 ∨
      data.latticeh - pix.h < 0) := by omega
  have hpad : pad_template data pix = some
      { w := pix.w + 0 + (data.latticew - pix.w),
        h := pix.h + 0 + (data.latticeh - pix.h),
        pixel := fun x y =>
          if 0 ≤ x ∧ x < 0 + pix.w ∧ 0 ≤ y ∧ y < 0 + pix.h then pix.pixel (x - 0) (y - 0)
          else 0 } := by
    simp only [pad_template, border_widths, pixAddBorderGeneral, if_neg hneg]
  refine ⟨_, hpad, ?_, ?_, ?_, ?_⟩
  · show pix.w + 0 + (data.latticew - pix.w) = data.latticew
    omega
  · show pix.h + 0 + (data.latticeh - pix.h) = data.latticeh
    omega
  · intro x y hx0 hx hy0 hy
    have hin : 0 ≤ x ∧ x < 0 + pix.w ∧ 0 ≤ y ∧ y < 0 + pix.h := by omega
    simp only [if_pos hin, sub_zero]
  · intro x y hout
    have hnot : ¬ (0 ≤ x ∧ x < 0 + pix.w ∧ 0 ≤ y ∧ y < 0 + pix.h) := by
      intro h
      apply hout
      omega
    simp only [if_neg hnot]

/-- Witness for C9: a 12 x 15 template in the 20 x 20 lattice. -/
theorem pad_template_dimensions_witness :
    sample_pix.w ≤ sample_data.latticew ∧ sample_pix.h ≤ sample_data.latticeh ∧
    border_widths sample_data sample_pix = (0, 8, 0, 5) ∧
    ∃ padded, pad_template sample_data sample_pix = some padded ∧
      padded.w = 20 ∧ padded.h = 20 := by
  obtain ⟨hb, padded, hp, hw, hh, _, _⟩ :=
    pad_template_dimensions sample_data sample_pix (by decide) (by decide)
  exact ⟨by decide, by decide, hb, padded, hp, hw, hh⟩

/-! ### The workspace in main -/

/-- C10 (the code departs from the claim): with an explicit workspace
`/tmp/ws` and font generation skipped, the `tmpdirname` that `main` passes to
`generate_pdf` is NULL, not the explicit path, and `generate_pdf` has no
defined result; the explicit path is passed only when font generation runs. -/
theorem main_skip_font_gen_tmpdirname :
    sample_args.debug_tmpdir = some "/tmp/ws" ∧
    sample_args.debug_skip_font_gen ≠ 0 ∧
    main_tmpdirname sample_args "/tmp/smoothscan_a1b2c3" = none ∧
    main_generate_pdf sample_args sample_data "/tmp/smoothscan_a1b2c3" = none ∧
    main_tmpdirname
      { num_input_files := 1, outname := "out.pdf", debug_tmpdir := some "/tmp/ws",
        debug_draw_borders := 0, debug_skip_font_gen := 0, debug_no_clean_tmpdir := 1 }
      "/tmp/smoothscan_a1b2c3" = some "/tmp/ws" := by
  refine ⟨rfl, by decide, rfl, ?_, rfl⟩
  rfl


/-! ### num_digits -/

theorem num_digits_loop_pos (a n : Int) (h : 0 < a) :
    num_digits_loop a n = num_digits_loop (a / 10) (n + 1) := by
  rw [num_digits_loop, if_pos h, Int.tdiv_eq_ediv (by omega) (by decide)]

theorem num_digits_loop_nonpos (a n : Int) (h : a ≤ 0) : num_digits_loop a n = n := by
  rw [num_digits_loop, if_neg (by omega)]

theorem num_digits_loop_shift : ∀ (f : Nat) (a n : Int), a.toNat < f →
    num_digits_loop a n = n + num_digits_loop a 0 := by
  intro f
  induction f with
  | zero => intro a n h; omega
  | succ f ih =>
    intro a n h
    by_cases ha : 0 < a
    · rw [num_digits_loop_pos a n ha, num_digits_loop_pos a 0 ha,
        ih (a / 10) (n + 1) (by omega), ih (a / 10) (0 + 1) (by omega)]
      omega
    · rw [num_digits_loop_nonpos a n (by omega), num_digits_loop_nonpos a 0 (by omega)]
      omega

theorem num_digits_loop_step (a : Int) (h : 0 < a) :
    num_digits_loop a 0 = 1 + num_digits_loop (a / 10) 0 := by
  rw [num_digits_loop_pos a 0 h, num_digits_loop_shift ((a / 10).toNat + 1) (a / 10) (0 + 1)
    (by omega)]
  omega

theorem num_digits_loop_bounds : ∀ (k : Nat) (a : Int), 1 ≤ k →
    (10 : Int) ^ (k - 1) ≤ a → a < (10 : Int) ^ k → num_digits_loop a 0 = (k : Int) := by
  intro k
  induction k with
  | zero => intro a h; omega
  | succ k ih =>
    intro a _ hlo hhi
    have hpos : (0 : Int) < (10 : Int) ^ k := by positivity
    simp only [Nat.add_sub_cancel] at hlo
    rw [pow_succ] at hhi
    rw [num_digits_loop_step a (by omega)]
    by_cases hk : k = 0
    · subst hk
      simp only [pow_zero] at hlo hhi
      rw [num_digits_loop_nonpos (a / 10) 0 (by omega)]
      rfl
    · have hk1 : k = (k - 1) + 1 := by omega
      have hpow : (10 : Int) ^ k = (10 : Int) ^ (k - 1) * 10 := by
        conv_lhs => rw [hk1]
        exact pow_succ _ _
      rw [ih (a / 10) (by omega) (by omega) (by omega)]
      push_cast
      omega

theorem toDigitsCore_length_loop : ∀ (fuel m : Nat) (ds : List Char), m < fuel →
    (((Nat.toDigitsCore 10 fuel m ds).length : Nat) : Int) =
      (ds.length : Int) + 1 + num_digits_loop (((m / 10 : Nat)) : Int) 0 := by
  intro fuel
  induction fuel with
  | zero => intro m ds h; omega
  | succ fuel ih =>
    intro m ds h
    by_cases h0 : m / 10 = 0
    · simp only [Nat.toDigitsCore, h0, if_true, List.length_cons]
      rw [num_digits_loop_nonpos _ 0 (by simp)]
      push_cast
      omega
    · simp only [Nat.toDigitsCore, h0, if_false]
      rw [ih (m / 10) _ (by omega), num_digits_loop_step ((m / 10 : Nat) : Int) (by omega)]
      simp only [List.length_cons]
      push_cast
      omega

theorem num_digits_natCast (m : Nat) :
    num_digits (m : Int) = (((Nat.toDigits 10 m).length : Nat) : Int) := by
  unfold Nat.toDigits
  rw [toDigitsCore_length_loop (m + 1) m [] (by omega)]
  unfold num_digits
  by_cases h0 : m = 0
  · subst h0
    simp [num_digits_loop_nonpos]
  · have hne : ¬ ((m : Int) = 0) := by omega
    rw [if_neg hne, num_digits_loop_step (m : Int) (by omega)]
    simp

theorem num_digits_eq_format_length (a : Int) (ha : 0 ≤ a) :
    num_digits a = (((format_d a).length : Nat) : Int) := by
  obtain ⟨m, rfl⟩ := Int.eq_ofNat_of_zero_le ha
  rw [num_digits_natCast]
  rfl

/-- C12: `num_digits` is a total function, and for every `a ≥ 0` its value is
the number of characters of the decimal representation of `a`: 1 for `a = 0`,
and `k` when `10 ^ (k - 1) ≤ a < 10 ^ k`. -/
theorem num_digits_decimal (a : Int) (ha : 0 ≤ a) :
    num_digits a = (((format_d a).length : Nat) : Int) ∧
    (a = 0 → num_digits a = 1) ∧
    (∀ k : Nat, 1 ≤ k → (10 : Int) ^ (k - 1) ≤ a → a < (10 : Int) ^ k →
      num_digits a = (k : Int)) := by
  refine ⟨num_digits_eq_format_length a ha, ?_, ?_⟩
  · intro h0
    rw [num_digits, if_pos h0]
  · intro k hk hlo hhi
    have hpos : (0 : Int) < (10 : Int) ^ (k - 1) := by positivity
    rw [num_digits, if_neg (by omega)]
    exact num_digits_loop_bounds k a hk hlo hhi

/-- Witness for C12: 250 has three digits. -/
theorem num_digits_decimal_witness :
    (0 : Int) ≤ 250 ∧ num_digits 250 = 3 ∧ format_d 250 = "250" ∧ num_digits 0 = 1 := by
  refine ⟨by decide, ?_, by decide, ?_⟩
  · exact (num_digits_decimal 250 (by decide)).2.2 3 (by decide) (by decide) (by decide)
  · exact (num_digits_decimal 0 (by decide)).2.1 rfl

/-! ### create_font_from_dir -/

/-- C14: for all strings `dirname`, `fontname` and all non-negative
`latticeh`, `latticew`, `fontnum`, the `commandlen` computed in
`create_font_from_dir` is exactly the length of the string that the format
`smoothscan-fontgen.py %s %s %d %d %d` produces, so the string and its NUL fit
the `commandlen + 1` bytes allocated. -/
theorem commandlen_exact (dirname fontname : String) (latticeh latticew fontnum : Int)
    (h1 : 0 ≤ latticeh) (h2 : 0 ≤ latticew) (h3 : 0 ≤ fontnum) :
    commandlen dirname fontname latticeh latticew fontnum =
      (((command dirname fontname latticeh latticew fontnum).length : Nat) : Int) ∧
    (command dirname fontname latticeh latticew fontnum).length + 1 ≤
      (commandlen dirname fontname latticeh latticew fontnum + 1).toNat := by
  have hlen : commandlen dirname fontname latticeh latticew fontnum =
      (((command dirname fontname latticeh latticew fontnum).length : Nat) : Int) := by
    have hname : ("smoothscan-fontgen.py ".length : Nat) = 22 := by decide
    have hname0 : ("smoothscan-fontgen.py".length : Nat) = 21 := by decide
    have hsp : (" ".length : Nat) = 1 := by decide
    simp only [commandlen, command, strlen, String.length_append, hname, hname0, hsp,
      num_digits_eq_format_length latticeh h1, num_digits_eq_format_length latticew h2,
      num_digits_eq_format_length fontnum h3]
    push_cast
    omega
  refine ⟨hlen, ?_⟩
  rw [hlen]
  omega

/-- Witness for C14: the command for font 0 of the workspace `/tmp/ws` with a
20 x 20 lattice is 67 characters long. -/
theorem commandlen_exact_witness :
    (0 : Int) ≤ 20 ∧ (0 : Int) ≤ 0 ∧
    command "/tmp/ws/00000000" "/tmp/ws/00000000.ttf" 20 20 0 =
      "smoothscan-fontgen.py /tmp/ws/00000000 /tmp/ws/00000000.ttf 20 20 0" ∧
    commandlen "/tmp/ws/00000000" "/tmp/ws/00000000.ttf" 20 20 0 = 67 := by
  refine ⟨by decide, by decide, by decide, ?_⟩
  rw [(commandlen_exact "/tmp/ws/00000000" "/tmp/ws/00000000.ttf" 20 20 0
    (by decide) (by decide) (by decide)).1]
  decide

/-! ### Font table lookups -/

theorem fontdirlens_getElem? (dirnamelen num_fonts : Int) (k : Nat) (hk : k < num_fonts.toNat) :
    (fontdirlens dirnamelen num_fonts)[k]? = some (dirnamelen + 1 + 8) := by
  simp [fontdirlens, List.getElem?_replicate, hk]

theorem fontdirnames_getElem? (dirname : String) (num_fonts : Int) (k : Nat)
    (hk : k < num_fonts.toNat) :
    (fontdirnames dirname num_fonts)[k]? = some { dir := dirname, index := k } := by
  simp [fontdirnames, List.getElem?_range hk]

/-- C13: for every class index below the class count, the `font_num` that
`register_mappings` assigns is below the font count it returns; so the lookup
`fonts[maps[iclass].font_num]` of `generate_pdf` and the lookups
`fontdirlens[fontn]`, `fontdirnames[fontn]` of `generate_fonts`, in arrays of
that many entries, are in range. -/
theorem register_mappings_font_num_in_range (data : JBDATA) (tmpdirname dirname : String)
    (h : data.nclass.toNat ≤ data.naclass.length) :
    ∃ num_fonts maps, register_mappings data = some (num_fonts, maps) ∧
      ∀ i, i < data.nclass.toNat → ∃ m, maps[i]? = some m ∧ m.font_num < num_fonts ∧
        font_of_class maps (load_fonts tmpdirname (num_fonts : Int)) i =
          some { dir := tmpdirname, index := m.font_num } ∧
        glyph_file_of maps dirname (num_fonts : Int) i =
          some { font := { dir := dirname, index := m.font_num },
                 code_point := m.code_point,
                 filenamelen := strlen dirname + 1 + 8 + 1 + 3 + 4 } := by
  refine ⟨_, _, register_mappings_eq data h, ?_⟩
  intro i hi
  have hm := table_after_assigned data.naclass.length data.nclass.toNat i h hi
  have hlt : (assigned i).font_num < data.nclass.toNat / 221 + 1 := by
    simp only [assigned]
    omega
  have hlt2 : (assigned i).font_num < ((data.nclass.toNat / 221 + 1 : Nat) : Int).toNat := by
    rw [Int.toNat_ofNat]
    exact hlt
  refine ⟨assigned i, hm, hlt, ?_, ?_⟩
  · simp only [font_of_class, hm]
    exact load_fonts_getElem? _ _ _ hlt2
  · simp only [glyph_file_of, hm, fontdirlens_getElem? _ _ _ hlt2,
      fontdirnames_getElem? _ _ _ hlt2]

/-- Witness for C13: 250 classes, two fonts. -/
theorem register_mappings_font_num_in_range_witness :
    (jbdata_of_classes 250).nclass.toNat ≤ (jbdata_of_classes 250).naclass.length ∧
    ∃ num_fonts maps, register_mappings (jbdata_of_classes 250) = some (num_fonts, maps) ∧
      ∀ i, i < (jbdata_of_classes 250).nclass.toNat →
        ∃ m, maps[i]? = some m ∧ m.font_num < num_fonts ∧
        font_of_class maps (load_fonts "/tmp/ws" (num_fonts : Int)) i =
          some { dir := "/tmp/ws", index := m.font_num } ∧
        glyph_file_of maps "/tmp/ws" (num_fonts : Int) i =
          some { font := { dir := "/tmp/ws", index := m.font_num },
                 code_point := m.code_point,
                 filenamelen := strlen "/tmp/ws" + 1 + 8 + 1 + 3 + 4 } :=
  ⟨jbdata_of_classes_ok 250,
   register_mappings_font_num_in_range (jbdata_of_classes 250) "/tmp/ws" "/tmp/ws"
     (jbdata_of_classes_ok 250)⟩

/-! ### validate_args -/

theorem check_input_files_readable (file_exists : String → Bool) (input_files : List String) :
    ∀ is : List Nat,
      (∀ i, i ∈ is → ∃ f, input_files[i]? = some f ∧ file_exists f = true) →
      check_input_files file_exists input_files is = outcome.returned () := by
  intro is
  induction is with
  | nil => intro _; rfl
  | cons i is ih =>
    intro h
    obtain ⟨f, hf, hr⟩ := h i (List.mem_cons_self _ _)
    rw [check_input_files]
    simp only [hf, hr, Bool.not_true, Bool.false_eq_true, if_false]
    exact ih (fun k hk => h k (List.mem_cons_of_mem _ hk))

theorem check_input_files_returned (file_exists : String → Bool) (input_files : List String) :
    ∀ is : List Nat,
      check_input_files file_exists input_files is = outcome.returned () →
      ∀ i, i ∈ is → ∃ f, input_files[i]? = some f ∧ file_exists f = true := by
  intro is
  induction is with
  | nil => intro _ i hi; cases hi
  | cons k is ih =>
    intro h i hi
    rw [check_input_files] at h
    cases hf : input_files[k]? with
    | none => simp [hf] at h
    | some f =>
      by_cases hr : file_exists f = true
      · simp only [hf, hr, Bool.not_true, Bool.false_eq_true, if_false] at h
        rcases List.mem_cons.1 hi with rfl | hin
        · exact ⟨f, hf, hr⟩
        · exact ih h i hin
      · simp [hf, hr] at h

theorem validate_args_of_passes (file_exists : String → Bool) (reply : Option Char)
    (a : cli_args) (h : passes_all_checks file_exists reply a) :
    validate_args file_exists reply a = outcome.returned 0 := by
  obtain ⟨input_files, outname, hin, hout, hn, hlen, hread, ht1, ht2, hw1, hw2, hover⟩ := h
  have hfirst : ¬ (a.num_input_files ≤ 0 ∨ a.input_files = none) := by
    rw [hin]
    simp only [reduceCtorEq, or_false]
    omega
  have hfiles : check_input_files file_exists (a.input_files.getD [])
      (List.range a.num_input_files.toNat) = outcome.returned () := by
    apply check_input_files_readable
    intro i hi
    have hi2 : i < input_files.length := by
      rw [hlen]
      exact List.mem_range.1 hi
    refine ⟨input_files[i], ?_, hread _ (List.getElem_mem _)⟩
    rw [hin]
    exact List.getElem?_eq_getElem hi2
  have hthresh : ¬ (a.thresh < 4 / 10 ∨ a.thresh > 98 / 100) := by
    rintro (h1 | h1)
    · exact absurd ht1 (not_le.2 h1)
    · exact absurd ht2 (not_le.2 h1)
  have hweight : ¬ (a.weight < 0 ∨ a.weight > 1) := by
    rintro (h1 | h1)
    · exact absurd hw1 (not_le.2 h1)
    · exact absurd hw2 (not_le.2 h1)
  unfold validate_args
  rw [if_neg hfirst]
  simp only [hout, hfiles, if_neg hthresh, if_neg hweight]
  rcases hover with h0 | h1 | h1
  · simp [h0]
  · subst h1
    by_cases he : file_exists outname = true
    · simp [he]
    · simp [he]
  · subst h1
    by_cases he : file_exists outname = true
    · simp [he]
    · simp [he]

theorem validate_args_returned (file_exists : String → Bool) (reply : Option Char)
    (a : cli_args) (v : Int) (h : validate_args file_exists reply a = outcome.returned v) :
    v = 0 := by
  unfold validate_args at h
  by_cases h1 : a.num_input_files ≤ 0 ∨ a.input_files = none
  · rw [if_pos h1] at h
    cases h
  · rw [if_neg h1] at h
    cases ho : a.outname with
    | none =>
      simp only [ho] at h
      cases h
    | some outname =>
      simp only [ho] at h
      cases hc : check_input_files file_exists (a.input_files.getD [])
          (List.range a.num_input_files.toNat) with
      | undefined =>
        simp only [hc] at h
        cases h
      | error_quit msg =>
        simp only [hc] at h
        cases h
      | returned u =>
        simp only [hc] at h
        split_ifs at h <;> cases h <;> rfl


theorem validate_args_returned_passes (file_exists : String → Bool) (reply : Option Char)
    (a : cli_args) (v : Int) (h : validate_args file_exists reply a = outcome.returned v)
    (hlen : ∀ l, a.input_files = some l → l.length = a.num_input_files.toNat) :
    passes_all_checks file_exists reply a := by
  unfold validate_args at h
  by_cases h1 : a.num_input_files ≤ 0 ∨ a.input_files = none
  · rw [if_pos h1] at h
    cases h
  · rw [if_neg h1] at h
    have hn : 0 < a.num_input_files := by
      by_contra hc
      exact h1 (Or.inl (by omega))
    cases hin : a.input_files with
    | none => exact absurd (Or.inr hin) h1
    | some input_files =>
      cases ho : a.outname with
      | none =>
        simp only [ho] at h
        cases h
      | some outname =>
        simp only [ho, hin, Option.getD_some] at h
        cases hc : check_input_files file_exists input_files
            (List.range a.num_input_files.toNat) with
        | undefined =>
          simp only [hc] at h
          cases h
        | error_quit msg =>
          simp only [hc] at h
          cases h
        | returned u =>
          simp only [hc] at h
          have hread : ∀ f, f ∈ input_files → file_exists f = true := by
            intro f hf
            obtain ⟨i, hi, hfi⟩ := List.getElem_of_mem hf
            have hi2 : i ∈ List.range a.num_input_files.toNat := by
              rw [List.mem_range, ← hlen input_files hin]
              exact hi
            obtain ⟨g, hg, hr⟩ := check_input_files_returned file_exists input_files _ hc i hi2
            rw [List.getElem?_eq_getElem hi, hfi] at hg
            cases hg
            exact hr
          by_cases ht : a.thresh < 4 / 10 ∨ a.thresh > 98 / 100
          · rw [if_pos ht] at h
            cases h
          · rw [if_neg ht] at h
            by_cases hw : a.weight < 0 ∨ a.weight > 1
            · rw [if_pos hw] at h
              cases h
            · rw [if_neg hw] at h
              rw [not_or, not_lt, not_lt] at ht hw
              refine ⟨input_files, outname, hin, ho, hn, hlen input_files hin, hread,
                ht.1, ht.2, hw.1, hw.2, ?_⟩
              by_cases he : file_exists outname = true
              · rw [if_pos he] at h
                right
                by_cases hc2 : reply.getD 'n' ≠ 'Y' ∧ reply.getD 'n' ≠ 'y'
                · simp only [hc2, ne_eq, not_false_eq_true, and_self, if_true] at h
                  cases h
                · cases reply with
                  | none => exact absurd (by decide) hc2
                  | some c =>
                    simp only [Option.getD_some, ne_eq, not_and_or, not_not] at hc2
                    rcases hc2 with rfl | rfl
                    · exact Or.inr rfl
                    · exact Or.inl rfl
              · left
                simpa using he

/-- C11 (the code departs from the claim): for an argument set that passes
every check, two readable input files, an output name, `thresh = 0.85`,
`weight = 0.5` and no existing output file, `validate_args` returns 0, not 1;
it also returns 0 when the output file exists and overwriting is confirmed.
An argument set with `thresh = 1` stops through `error_quit`. -/
theorem validate_args_valid_returns_zero :
    validate_args sample_file_exists none sample_cli_args = outcome.returned 0 ∧
    validate_args (fun _ => true) (some 'y') sample_cli_args = outcome.returned 0 ∧
    validate_args sample_file_exists none
        { num_input_files := 2, input_files := some ["p1.tif", "p2.tif"],
          outname := some "out.pdf", thresh := 1, weight := 1 / 2 } =
      outcome.error_quit "Threshold parameter must be in the range [0.4 - 0.98]" := by
  refine ⟨?_, ?_, ?_⟩
  · apply validate_args_of_passes
    refine ⟨["p1.tif", "p2.tif"], "out.pdf", rfl, rfl, by decide, rfl, ?_, ?_, ?_, ?_, ?_,
      Or.inl (by decide)⟩
    · intro f hf
      simp only [List.mem_cons, List.mem_singleton, List.not_mem_nil, or_false] at hf
      rcases hf with rfl | rfl <;> decide
    all_goals (simp only [sample_cli_args]; norm_num)
  · apply validate_args_of_passes
    refine ⟨["p1.tif", "p2.tif"], "out.pdf", rfl, rfl, by decide, rfl, ?_, ?_, ?_, ?_, ?_,
      Or.inr (Or.inl rfl)⟩
    · intro f _
      rfl
    all_goals (simp only [sample_cli_args]; norm_num)
  · have hfiles : check_input_files sample_file_exists ["p1.tif", "p2.tif"]
        (List.range (2 : Int).toNat) = outcome.returned () := by decide
    have hfirst : ¬ ((2 : Int) ≤ 0 ∨ (some ["p1.tif", "p2.tif"] : Option (List String)) = none) := by
      simp
    unfold validate_args
    simp only [if_neg hfirst, Option.getD_some, hfiles]
    norm_num

end Smoothscan
